import Mathlib

set_option maxRecDepth 100000

/-!
Verification of the MSX CAS tape codec (`src/tape.rs`).

Bytes are modelled as `Nat` (the source only constructs and compares byte
values, never wraps arithmetic, so no modular reduction is needed).  A
`Block` stores its full byte vector, i.e. the 8-byte synchronization marker
followed by the body, exactly like the Rust `Block` struct stores the
marker bytes followed by the data bytes.

Rust panics are modelled explicitly: an out-of-range slice or index, and an
`unwrap` of `None`, are represented by an `Option` result (`none` = the
source panics) for the classification functions, and by a distinguished
`Step.crash` outcome for the file-grouping iterator.
-/

/-- The 8-byte block marker `1f a6 de ba cc 13 7d 74` recognised by the splitter. -/
def marker : List Nat := [0x1f, 0xa6, 0xde, 0xba, 0xcc, 0x13, 0x7d, 0x74]

/-- Ten repeated `0xd0` bytes: the binary-file header pattern. -/
def binPattern : List Nat := List.replicate 10 0xd0

/-- Ten repeated `0xd3` bytes: the Basic-file header pattern. -/
def basicPattern : List Nat := List.replicate 10 0xd3

/-- Ten repeated `0xea` bytes: the ASCII-file header pattern. -/
def asciiPattern : List Nat := List.replicate 10 0xea

/-- A tape block: the full byte vector, marker included, as in `Block { data }`. -/
structure Block where
  data : List Nat
deriving DecidableEq

/-- Embeds `Block::from_data`: prepend the marker to the body bytes. -/
def Block.from_data (bytes : List Nat) : Block :=
  ⟨marker ++ bytes⟩

/-- Embeds `Block::data_without_prefix` (renamed `body` here): drop the 8 marker bytes. -/
def Block.body (b : Block) : List Nat :=
  b.data.drop 8

/-- One padding pass of `Tape::extend_last_block` applied to a single block: push
`padding_byte` until the body length is a multiple of `align`.  The while loop pushes
exactly `(align - len % align) % align` bytes. -/
def Block.padToAlign (b : Block) (align pad : Nat) : Block :=
  ⟨b.data ++ List.replicate ((align - b.body.length % align) % align) pad⟩

/-- A tape: the ordered block list, as in `Tape { blocks }`. -/
structure Tape where
  blocks : List Block
deriving DecidableEq

/-- Embeds `Tape::new`. -/
def Tape.new : Tape := ⟨[]⟩

/-- Embeds `Tape::extend_last_block`: pad the most recently pushed block (if any)
with `pad` bytes to `align`-byte body alignment. -/
def Tape.extend_last_block (t : Tape) (align pad : Nat) : Tape :=
  match t.blocks.getLast? with
  | none => t
  | some b => ⟨t.blocks.dropLast ++ [b.padToAlign align pad]⟩

/-- Embeds `Tape::append_block`: push the block, then zero-pad the last block to
8-byte body alignment. -/
def Tape.append_block (t : Tape) (b : Block) : Tape :=
  Tape.extend_last_block ⟨t.blocks ++ [b]⟩ 8 0x00

/-- Embeds `Tape::append_bin`: header block `d0`×10 followed by the six name bytes,
then the data block, each pushed through `append_block`. -/
def Tape.append_bin (t : Tape) (name data : List Nat) : Tape :=
  let t1 := t.append_block (Block.from_data (binPattern ++ name))
  t1.append_block (Block.from_data data)

/-- Embeds `Tape::append_basic`: as `append_bin` with the `d3`×10 pattern. -/
def Tape.append_basic (t : Tape) (name data : List Nat) : Tape :=
  let t1 := t.append_block (Block.from_data (basicPattern ++ name))
  t1.append_block (Block.from_data data)

/-- Fuelled splitting into chunks of `n` bytes, mirroring Rust `slice::chunks(n)`:
full chunks followed by a shorter remainder.  The fuel is only a structural
recursion device; `chunksOf` supplies `l.length`, which always suffices for
`n ≥ 1` (the source only ever calls `chunks` with 8 and 256). -/
def chunksOfAux (n : Nat) : Nat → List Nat → List (List Nat)
  | _, [] => []
  | 0, _ :: _ => []
  | fuel + 1, x :: rest => (x :: rest).take n :: chunksOfAux n fuel ((x :: rest).drop n)

/-- Rust `slice::chunks(n)` as a total function (empty slice gives zero chunks). -/
def chunksOf (n : Nat) (l : List Nat) : List (List Nat) :=
  chunksOfAux n l.length l

/-- Embeds `Tape::append_ascii`: push the `ea`×10 header, push one block per
256-byte chunk (each zero-padded to 8 by `append_block`), then either push an
all-`0x1a` 256-byte block (when `len % 256 == 0`) or pad the last pushed block
with `0x1a` bytes to a 256-byte boundary. -/
def Tape.append_ascii (t : Tape) (name data : List Nat) : Tape :=
  let t1 := t.append_block (Block.from_data (asciiPattern ++ name))
  let t2 := (chunksOf 256 data).foldl (fun acc c => acc.append_block (Block.from_data c)) t1
  if data.length % 256 = 0 then
    t2.append_block (Block.from_data (List.replicate 256 0x1a))
  else
    t2.extend_last_block 256 0x1a

/-- Embeds `Tape::append_custom`: push the block directly onto `blocks`,
bypassing `append_block` (and hence bypassing the 8-byte padding). -/
def Tape.append_custom (t : Tape) (data : List Nat) : Tape :=
  ⟨t.blocks ++ [Block.from_data data]⟩

/-- Spec-side predicate for the block-alignment invariant: every stored block
body length is a multiple of 8. -/
def alignedTape (t : Tape) : Bool :=
  t.blocks.all (fun b => b.body.length % 8 == 0)

/-- Embeds the byte-level scan of `Tape::parse_blocks` over `bytes.chunks(8)`:
record the running offset of every chunk that equals the marker. -/
def markerScan : List (List Nat) → Nat → List Nat
  | [], _ => []
  | c :: rest, i => (if c = marker then [i] else []) ++ markerScan rest (i + 8)

/-- The `hindex` vector of `Tape::parse_blocks`: offsets of all marker chunks. -/
def findMarkers (bytes : List Nat) : List Nat :=
  markerScan (chunksOf 8 bytes) 0

/-- The Rust range slice of `l` from `a` (inclusive) to `b` (exclusive); in
every use below `a ≤ b ≤ l.length` holds, where this agrees with the in-range
Rust slice. -/
def byteSlice (l : List Nat) (a b : Nat) : List Nat :=
  (l.drop a).take (b - a)

/-- The second loop of `Tape::parse_blocks`: block `k` spans from just after
marker `k` to the byte before marker `k+1`, or to end-of-buffer for the last
marker.  The indexed Rust loop is rendered as recursion over the index list. -/
def blocksFromIndices (bytes : List Nat) : List Nat → List Block
  | [] => []
  | [h] => [Block.from_data (byteSlice bytes (h + 8) bytes.length)]
  | h1 :: h2 :: rest =>
      Block.from_data (byteSlice bytes (h1 + 8) h2) :: blocksFromIndices bytes (h2 :: rest)

/-- Embeds `Tape::parse_blocks`. -/
def Tape.parse_blocks (bytes : List Nat) : List Block :=
  blocksFromIndices bytes (findMarkers bytes)

/-- Embeds `Tape::from_bytes`. -/
def Tape.from_bytes (bytes : List Nat) : Tape :=
  ⟨Tape.parse_blocks bytes⟩

/-- A decoded file, as in the Rust `File` enum.  Names are kept as the byte
sequence of the Rust `String` (the trimmed name bytes). -/
inductive File where
  | Bin : List Nat → Nat → Nat → Nat → List Nat → File
  | Basic : List Nat → List Nat → File
  | Ascii : List Nat → List (List Nat) → File
  | Custom : List Nat → File
deriving DecidableEq

/-- Outcome of one `Files::next` call: an emitted file with the new cursor, end
of iteration, or a panic of the source (out-of-range index/slice or a failed
`unwrap`). -/
inductive Step where
  | file : File → Nat → Step
  | done : Step
  | crash : Step
deriving DecidableEq

/-- A UTF-8 continuation byte, `0x80..=0xbf`. -/
def contByte (b : Nat) : Bool := decide (0x80 ≤ b ∧ b ≤ 0xbf)

/-- Standard UTF-8 validity (RFC 3629, Unicode Table 3-7), the check performed
by Rust `str::from_utf8`: no overlong forms, no surrogates, max `U+10FFFF`. -/
def utf8Valid : List Nat → Bool
  | [] => true
  | b :: rest =>
    if b ≤ 0x7f then utf8Valid rest
    else if 0xc2 ≤ b ∧ b ≤ 0xdf then
      match rest with
      | b1 :: rest2 => contByte b1 && utf8Valid rest2
      | [] => false
    else if b = 0xe0 then
      match rest with
      | b1 :: b2 :: rest2 =>
          decide (0xa0 ≤ b1 ∧ b1 ≤ 0xbf) && contByte b2 && utf8Valid rest2
      | _ => false
    else if (0xe1 ≤ b ∧ b ≤ 0xec) ∨ (0xee ≤ b ∧ b ≤ 0xef) then
      match rest with
      | b1 :: b2 :: rest2 => contByte b1 && contByte b2 && utf8Valid rest2
      | _ => false
    else if b = 0xed then
      match rest with
      | b1 :: b2 :: rest2 =>
          decide (0x80 ≤ b1 ∧ b1 ≤ 0x9f) && contByte b2 && utf8Valid rest2
      | _ => false
    else if b = 0xf0 then
      match rest with
      | b1 :: b2 :: b3 :: rest2 =>
          decide (0x90 ≤ b1 ∧ b1 ≤ 0xbf) && contByte b2 && contByte b3 && utf8Valid rest2
      | _ => false
    else if 0xf1 ≤ b ∧ b ≤ 0xf3 then
      match rest with
      | b1 :: b2 :: b3 :: rest2 =>
          contByte b1 && contByte b2 && contByte b3 && utf8Valid rest2
      | _ => false
    else if b = 0xf4 then
      match rest with
      | b1 :: b2 :: b3 :: rest2 =>
          decide (0x80 ≤ b1 ∧ b1 ≤ 0x8f) && contByte b2 && contByte b3 && utf8Valid rest2
      | _ => false
    else false

/-- Byte-level rendering of `trim_end_matches(&['\0', ' '])`: remove all
trailing `0x00`/`0x20` bytes.  On valid UTF-8 this agrees with the char-level
Rust trim, because `0x00` and `0x20` never occur as continuation bytes. -/
def trimTrailing (l : List Nat) : List Nat :=
  (l.reverse.dropWhile (fun b => b == 0x00 || b == 0x20)).reverse

/-- The six name bytes of a header body, `&data[10..16]`. -/
def nameField (body : List Nat) : List Nat :=
  (body.drop 10).take 6

/-- Little-endian `u16` read at `off`, `LittleEndian::read_u16(&l[off..off+2])`.
Used only under the guard `off + 2 ≤ l.length`, where `getD` equals the byte. -/
def le16 (l : List Nat) (off : Nat) : Nat :=
  l.getD off 0 + 256 * l.getD (off + 1) 0

/-- Embeds `Block::is_bin_header`.  The source slices `data[..10]`, which is an
out-of-range panic when the body is shorter than 10 bytes; that case is `none`. -/
def Block.is_bin_header (b : Block) : Option Bool :=
  if 10 ≤ b.body.length then some (decide (b.body.take 10 = binPattern)) else none

/-- Embeds `Block::is_basic_header`; `none` models the short-body slice panic. -/
def Block.is_basic_header (b : Block) : Option Bool :=
  if 10 ≤ b.body.length then some (decide (b.body.take 10 = basicPattern)) else none

/-- Embeds `Block::is_ascii_header`; `none` models the short-body slice panic. -/
def Block.is_ascii_header (b : Block) : Option Bool :=
  if 10 ≤ b.body.length then some (decide (b.body.take 10 = asciiPattern)) else none

/-- Embeds `Block::is_file_header` (the disjunction of the three checks, which
panics on a short body as soon as `is_bin_header` is called). -/
def Block.is_file_header (b : Block) : Option Bool :=
  if 10 ≤ b.body.length then
    some (decide (b.body.take 10 = binPattern ∨ b.body.take 10 = basicPattern ∨
      b.body.take 10 = asciiPattern))
  else none

/-- Embeds `Block::file_name`.  Outer `none` = source panic (body shorter than
10 for classification, or shorter than 16 for the `data[10..16]` slice); inner
`none` = the Rust function returns `None` (non-header block, or a name field
that is not valid UTF-8). -/
def Block.file_name (b : Block) : Option (Option (List Nat)) :=
  if 10 ≤ b.body.length then
    if b.body.take 10 = binPattern ∨ b.body.take 10 = basicPattern ∨
        b.body.take 10 = asciiPattern then
      if 16 ≤ b.body.length then
        if utf8Valid (nameField b.body) then some (some (trimTrailing (nameField b.body)))
        else some none
      else none
    else some none
  else none

/-- The do-while chunk loop of the ascii branch of `Files::next`, fuelled for
structural recursion.  The loop indexes `blocks[i]` before evaluating its
`self.i < nblocks` guard, so running past the final block is an out-of-range
panic (`none`).  `asciiLoop` supplies fuel `blocks.length + 1`, which always
suffices: the index grows by one per iteration and the loop stops (with
`none`) as soon as it reaches `blocks.length`. -/
def asciiLoopAux (blocks : List Block) : Nat → Nat → List (List Nat) →
    Option (List (List Nat) × Nat)
  | 0, _, _ => none
  | fuel + 1, i, acc =>
    if h : i < blocks.length then
      if blocks[i].body.contains 0x1a then some (acc ++ [blocks[i].body], i + 1)
      else asciiLoopAux blocks fuel (i + 1) (acc ++ [blocks[i].body])
    else none

/-- The ascii chunk loop entered with the cursor just past the header. -/
def asciiLoop (blocks : List Block) (i : Nat) (acc : List (List Nat)) :
    Option (List (List Nat) × Nat) :=
  asciiLoopAux blocks (blocks.length + 1) i acc

/-- One call of `Files::next` at cursor `i`.  Every Rust panic reachable from
`next` is `Step.crash`: classifying a body shorter than 10 bytes, slicing the
name of a header body shorter than 16 bytes, unwrapping the name of an invalid
UTF-8 name field, indexing the missing data block after a dangling bin/basic
header, reading the three `u16` fields from a bin data body shorter than 6
bytes, and running the ascii chunk loop past the final block. -/
def filesStep (blocks : List Block) (i : Nat) : Step :=
  if h : i < blocks.length then
    if blocks[i].body.length < 10 then Step.crash
    else if blocks[i].body.take 10 = binPattern then
      if blocks[i].body.length < 16 then Step.crash
      else if utf8Valid (nameField blocks[i].body) = false then Step.crash
      else if h2 : i + 1 < blocks.length then
        if blocks[i + 1].body.length < 6 then Step.crash
        else
          Step.file
            (File.Bin (trimTrailing (nameField blocks[i].body))
              (le16 blocks[i + 1].body 0) (le16 blocks[i + 1].body 2)
              (le16 blocks[i + 1].body 4) blocks[i + 1].body) (i + 2)
      else Step.crash
    else if blocks[i].body.take 10 = basicPattern then
      if blocks[i].body.length < 16 then Step.crash
      else if utf8Valid (nameField blocks[i].body) = false then Step.crash
      else if h2 : i + 1 < blocks.length then
        Step.file (File.Basic (trimTrailing (nameField blocks[i].body))
          blocks[i + 1].body) (i + 2)
      else Step.crash
    else if blocks[i].body.take 10 = asciiPattern then
      if blocks[i].body.length < 16 then Step.crash
      else if utf8Valid (nameField blocks[i].body) = false then Step.crash
      else
        match asciiLoop blocks (i + 1) [] with
        | none => Step.crash
        | some (chunks, j) =>
            Step.file (File.Ascii (trimTrailing (nameField blocks[i].body)) chunks) j
    else Step.file (File.Custom blocks[i].body) (i + 1)
  else Step.done

/-- Repeated `Files::next` calls collecting every yielded file, fuelled for
structural recursion.  The pair's boolean is the crash flag: `true` when the
run ended in a source panic, with the files yielded before the panic in the
first component.  Each emitted step strictly increases the cursor, so fuel
`blocks.length + 1` (supplied by `filesAll`) always runs the iterator to
`done` or `crash`. -/
def filesRun (blocks : List Block) : Nat → Nat → List File → List File × Bool
  | 0, _, acc => (acc, false)
  | fuel + 1, i, acc =>
    match filesStep blocks i with
    | Step.done => (acc, false)
    | Step.crash => (acc, true)
    | Step.file f j => filesRun blocks fuel j (acc ++ [f])

/-- The whole decode of `tape.files()`: every file plus the crash flag. -/
def filesAll (blocks : List Block) : List File × Bool :=
  filesRun blocks (blocks.length + 1) 0 []

/-- The body produced for a payload pushed through `append_block`: the payload
followed by the `0x00` bytes that pad it to a multiple of 8. -/
def zeroPad8 (data : List Nat) : List Nat :=
  data ++ List.replicate ((8 - data.length % 8) % 8) 0x00

/-- The body of a freshly built block is exactly its data bytes. -/
theorem Block.body_from_data (d : List Nat) : (Block.from_data d).body = d := rfl

/-- Padding a freshly built block appends the padding bytes to its body. -/
theorem padToAlign_from_data (d : List Nat) (a p : Nat) :
    (Block.from_data d).padToAlign a p
      = Block.from_data (d ++ List.replicate ((a - d.length % a) % a) p) := by
  simp [Block.padToAlign, Block.from_data, Block.body, marker]

/-- `append_block` appends exactly one zero-padded block. -/
theorem append_block_blocks (t : Tape) (b : Block) :
    (t.append_block b).blocks = t.blocks ++ [b.padToAlign 8 0x00] := by
  simp [Tape.append_block, Tape.extend_last_block, List.getLast?_concat, List.dropLast_concat]

/-- `extend_last_block` never touches the blocks before the last one. -/
theorem extend_last_block_dropLast (t : Tape) (a p : Nat) :
    (t.extend_last_block a p).blocks.dropLast = t.blocks.dropLast := by
  unfold Tape.extend_last_block
  cases hE : t.blocks.getLast? with
  | none => rfl
  | some b => simp

/-- `extend_last_block` never adds or removes a block. -/
theorem extend_last_block_length (t : Tape) (a p : Nat) :
    (t.extend_last_block a p).blocks.length = t.blocks.length := by
  unfold Tape.extend_last_block
  cases hE : t.blocks.getLast? with
  | none => rfl
  | some b =>
    have hne : t.blocks ≠ [] := by
      intro h0
      rw [h0] at hE
      simp at hE
    have hpos : 0 < t.blocks.length := List.length_pos.mpr hne
    simp [List.length_dropLast]
    omega

/-- `extend_last_block` acts only on the suffix holding the last block. -/
theorem extend_last_block_append (l1 l2 : List Block) (h : l2 ≠ []) (a p : Nat) :
    (Tape.extend_last_block ⟨l1 ++ l2⟩ a p).blocks
      = l1 ++ (Tape.extend_last_block ⟨l2⟩ a p).blocks := by
  have h2 : (l1 ++ l2).getLast? = l2.getLast? := List.getLast?_append_of_ne_nil _ h
  have h3 : (l1 ++ l2).dropLast = l1 ++ l2.dropLast :=
    List.dropLast_append_of_ne_nil l1 h
  unfold Tape.extend_last_block
  rw [h2]
  cases hE : l2.getLast? with
  | none => rfl
  | some b => simp [h3]

/-- Pushing each chunk through `append_block` appends the zero-padded chunk blocks. -/
theorem foldl_append_block_blocks (cs : List (List Nat)) (t : Tape) :
    (cs.foldl (fun acc c => acc.append_block (Block.from_data c)) t).blocks
      = t.blocks ++ cs.map (fun c => (Block.from_data c).padToAlign 8 0x00) := by
  induction cs generalizing t with
  | nil => simp
  | cons c cs ih => simp [List.foldl_cons, ih, append_block_blocks]

/-- A nonempty byte list yields a nonempty chunk list. -/
theorem chunksOf_ne_nil (n : Nat) (l : List Nat) (h : l ≠ []) : chunksOf n l ≠ [] := by
  cases l with
  | nil => exact absurd rfl h
  | cons x rest => simp [chunksOf, chunksOfAux]

/-- Zero-padding to 8 bytes leaves an 8-byte aligned body. -/
theorem body_length_pad8 (b : Block) (p : Nat) :
    (b.padToAlign 8 p).body.length % 8 = 0 := by
  simp [Block.padToAlign, Block.body, List.length_drop, List.length_append,
    List.length_replicate]
  omega

/-- Padding to 256 bytes also leaves an 8-byte aligned body. -/
theorem body_length_pad256_mod8 (b : Block) (p : Nat) :
    (b.padToAlign 256 p).body.length % 8 = 0 := by
  simp [Block.padToAlign, Block.body, List.length_drop, List.length_append,
    List.length_replicate]
  omega

/-- Alignment of a concatenated block list splits into the two halves. -/
theorem alignedTape_append (l1 l2 : List Block) :
    alignedTape ⟨l1 ++ l2⟩ = (alignedTape ⟨l1⟩ && alignedTape ⟨l2⟩) := by
  simp [alignedTape, List.all_append]

/-- Claim C1: REFUTED by the code.  `append_ascii` routes every chunk through
`append_block`, which zero-pads the chunk to 8-byte alignment before
`extend_last_block` adds the `0x1a` fill.  For the one-byte text `[0x41]` the
final data block body is `0x41`, seven `0x00` bytes, and only then 248 `0x1a`
bytes, not the text followed only by `0x1a`; and for a 255-byte text the zero
byte completes the 256-byte block, so no `0x1a` sentinel is emitted at all. -/
theorem append_ascii_zero_pads_short_chunk_before_eof :
    (Tape.append_ascii Tape.new [0x46, 0x4f, 0x4f, 0x42, 0x41, 0x52] [0x41]).blocks
      = [Block.from_data (asciiPattern ++ [0x46, 0x4f, 0x4f, 0x42, 0x41, 0x52]),
         Block.from_data ([0x41] ++ List.replicate 7 0x00 ++ List.replicate 248 0x1a)]
    ∧ ([0x41] ++ List.replicate 7 0x00 ++ List.replicate 248 0x1a : List Nat)
        ≠ [0x41] ++ List.replicate 255 0x1a
    ∧ ((Tape.append_ascii Tape.new [0x46, 0x4f, 0x4f, 0x42, 0x41, 0x52]
          (List.replicate 255 0x41)).blocks.map (fun b => b.body.contains 0x1a))
        = [false, false] := by
  refine ⟨by decide, by decide, by decide⟩


/-- Closed form of `append_ascii` when the payload length is a multiple of 256:
header, one padded block per chunk, and the extra all-`0x1a` block. -/
theorem append_ascii_blocks_of_mod (t : Tape) (name data : List Nat)
    (hmod : data.length % 256 = 0) :
    (t.append_ascii name data).blocks
      = t.blocks ++ ((Block.from_data (asciiPattern ++ name)).padToAlign 8 0x00
          :: ((chunksOf 256 data).map (fun c => (Block.from_data c).padToAlign 8 0x00)
            ++ [(Block.from_data (List.replicate 256 0x1a)).padToAlign 8 0x00])) := by
  simp only [Tape.append_ascii, if_pos hmod]
  simp [append_block_blocks, foldl_append_block_blocks]

/-- Closed form of `append_ascii` otherwise: header and padded chunk blocks,
with the last pushed block extended to 256 bytes with `0x1a`. -/
theorem append_ascii_blocks_of_not_mod (t : Tape) (name data : List Nat)
    (hmod : ¬ data.length % 256 = 0) :
    (t.append_ascii name data).blocks
      = t.blocks ++ (Tape.extend_last_block
          ⟨(Block.from_data (asciiPattern ++ name)).padToAlign 8 0x00
            :: (chunksOf 256 data).map (fun c => (Block.from_data c).padToAlign 8 0x00)⟩
          256 0x1a).blocks := by
  have hpush : ((chunksOf 256 data).foldl
        (fun acc c => acc.append_block (Block.from_data c))
        (t.append_block (Block.from_data (asciiPattern ++ name))))
      = ⟨t.blocks ++ ((Block.from_data (asciiPattern ++ name)).padToAlign 8 0x00
          :: (chunksOf 256 data).map (fun c => (Block.from_data c).padToAlign 8 0x00))⟩ :=
    congrArg Tape.mk (by simp [foldl_append_block_blocks, append_block_blocks])
  simp only [Tape.append_ascii, if_neg hmod]
  rw [hpush]
  exact extend_last_block_append _ _ (by simp) 256 0x1a

/-- Every block produced by mapping chunks through `append_block` padding is
8-byte aligned. -/
theorem all_aligned_map_pad8 (cs : List (List Nat)) :
    (cs.map (fun c => (Block.from_data c).padToAlign 8 0x00)).all
      (fun b => b.body.length % 8 == 0) = true := by
  simp only [List.all_eq_true]
  intro b hb
  rcases List.mem_map.mp hb with ⟨c, _, hc⟩
  simp [← hc, body_length_pad8]

/-- Claim C10: CONFIRMED.  Every append operation leaves the blocks already on
the tape unchanged and only pushes new blocks at the end, in order:
`append_bin`/`append_basic` push exactly the header block and the zero-padded
data block, `append_ascii` pushes a nonempty batch of new blocks after the
existing ones, `append_custom` pushes the raw block; and the padding helper
`extend_last_block` preserves every block except the last one (same list
length, same `dropLast`). -/
theorem append_frame_property :
    (∀ (t : Tape) (name data : List Nat),
        (t.append_bin name data).blocks
          = t.blocks ++ [(Block.from_data (binPattern ++ name)).padToAlign 8 0x00,
              (Block.from_data data).padToAlign 8 0x00])
    ∧ (∀ (t : Tape) (name data : List Nat),
        (t.append_basic name data).blocks
          = t.blocks ++ [(Block.from_data (basicPattern ++ name)).padToAlign 8 0x00,
              (Block.from_data data).padToAlign 8 0x00])
    ∧ (∀ (t : Tape) (name data : List Nat),
        ∃ pushed, pushed ≠ [] ∧ (t.append_ascii name data).blocks = t.blocks ++ pushed)
    ∧ (∀ (t : Tape) (data : List Nat),
        (t.append_custom data).blocks = t.blocks ++ [Block.from_data data])
    ∧ (∀ (t : Tape) (a p : Nat),
        (t.extend_last_block a p).blocks.dropLast = t.blocks.dropLast
          ∧ (t.extend_last_block a p).blocks.length = t.blocks.length) := by
  refine ⟨?_, ?_, ?_, ?_, ?_⟩
  · intro t name data
    simp [Tape.append_bin, append_block_blocks]
  · intro t name data
    simp [Tape.append_basic, append_block_blocks]
  · intro t name data
    by_cases hmod : data.length % 256 = 0
    · exact ⟨_, by simp, append_ascii_blocks_of_mod t name data hmod⟩
    · refine ⟨_, ?_, append_ascii_blocks_of_not_mod t name data hmod⟩
      intro h0
      have hlen := extend_last_block_length
        ⟨(Block.from_data (asciiPattern ++ name)).padToAlign 8 0x00
          :: (chunksOf 256 data).map (fun c => (Block.from_data c).padToAlign 8 0x00)⟩
        256 0x1a
      rw [h0] at hlen
      simp at hlen
  · intro t data
    rfl
  · intro t a p
    exact ⟨extend_last_block_dropLast t a p, extend_last_block_length t a p⟩

/-- Claim C3: REFUTED at `append_custom`, which pushes its block directly onto
the block vector without going through `append_block`, so nothing pads it: a
one-byte custom payload leaves a one-byte (unaligned) block body on the tape. -/
theorem append_custom_breaks_alignment :
    alignedTape (Tape.append_custom Tape.new [0x41]) = false
    ∧ (Tape.append_custom Tape.new [0x41]).blocks = [Block.from_data [0x41]]
    ∧ (Block.from_data [0x41]).body.length % 8 = 1 := by
  refine ⟨by decide, by decide, by decide⟩

/-- Claim C3 (amended): the 8-byte body-alignment invariant is preserved by
`append_bin`, `append_basic` and `append_ascii` on every tape and for every
name and payload; `append_custom` pushes its block unpadded, so it preserves
the invariant only when the payload length is already a multiple of 8. -/
theorem append_ops_preserve_alignment :
    (∀ (t : Tape) (name data : List Nat),
        alignedTape t = true → alignedTape (t.append_bin name data) = true)
    ∧ (∀ (t : Tape) (name data : List Nat),
        alignedTape t = true → alignedTape (t.append_basic name data) = true)
    ∧ (∀ (t : Tape) (name data : List Nat),
        alignedTape t = true → alignedTape (t.append_ascii name data) = true)
    ∧ (∀ (t : Tape) (data : List Nat),
        alignedTape t = true → data.length % 8 = 0 →
          alignedTape (t.append_custom data) = true) := by
  refine ⟨?_, ?_, ?_, ?_⟩
  · intro t name data h
    have hb : (t.append_bin name data).blocks
        = t.blocks ++ [(Block.from_data (binPattern ++ name)).padToAlign 8 0x00,
            (Block.from_data data).padToAlign 8 0x00] := by
      simp [Tape.append_bin, append_block_blocks]
    show (t.append_bin name data).blocks.all (fun b => b.body.length % 8 == 0) = true
    rw [hb, List.all_append]
    have h' : t.blocks.all (fun b => b.body.length % 8 == 0) = true := h
    simp [h', body_length_pad8]
  · intro t name data h
    have hb : (t.append_basic name data).blocks
        = t.blocks ++ [(Block.from_data (basicPattern ++ name)).padToAlign 8 0x00,
            (Block.from_data data).padToAlign 8 0x00] := by
      simp [Tape.append_basic, append_block_blocks]
    show (t.append_basic name data).blocks.all (fun b => b.body.length % 8 == 0) = true
    rw [hb, List.all_append]
    have h' : t.blocks.all (fun b => b.body.length % 8 == 0) = true := h
    simp [h', body_length_pad8]
  · intro t name data h
    have h' : t.blocks.all (fun b => b.body.length % 8 == 0) = true := h
    show (t.append_ascii name data).blocks.all (fun b => b.body.length % 8 == 0) = true
    by_cases hmod : data.length % 256 = 0
    · rw [append_ascii_blocks_of_mod t name data hmod, List.all_append]
      simp [h', body_length_pad8, all_aligned_map_pad8]
    · rw [append_ascii_blocks_of_not_mod t name data hmod, List.all_append]
      have htail : (Tape.extend_last_block
          ⟨(Block.from_data (asciiPattern ++ name)).padToAlign 8 0x00
            :: (chunksOf 256 data).map (fun c => (Block.from_data c).padToAlign 8 0x00)⟩
          256 0x1a).blocks.all (fun b => b.body.length % 8 == 0) = true := by
        set l := (Block.from_data (asciiPattern ++ name)).padToAlign 8 0x00
          :: (chunksOf 256 data).map (fun c => (Block.from_data c).padToAlign 8 0x00) with hl
        have hall : l.all (fun b => b.body.length % 8 == 0) = true := by
          rw [hl]
          simp [body_length_pad8, all_aligned_map_pad8]
        unfold Tape.extend_last_block
        cases hE : (Tape.mk l).blocks.getLast? with
        | none => exact hall
        | some b =>
          simp only [List.all_eq_true] at hall
          simp only [List.all_eq_true]
          intro x hx
          rcases List.mem_append.mp hx with hx1 | hx2
          · exact hall x (List.dropLast_subset _ hx1)
          · rcases List.mem_singleton.mp hx2 with rfl
            simp [body_length_pad256_mod8]
      simp [h', htail]
  · intro t data h hlen
    have h' : t.blocks.all (fun b => b.body.length % 8 == 0) = true := h
    show (t.append_custom data).blocks.all (fun b => b.body.length % 8 == 0) = true
    simp [Tape.append_custom, List.all_append, h', Block.body_from_data, hlen]

/-- Witness for the amended C3 theorem at a concrete tape and payload. -/
theorem append_ops_preserve_alignment_witness :
    alignedTape (Tape.new.append_ascii [0x46, 0x4f, 0x4f, 0x42, 0x41, 0x52] [0x41]) = true :=
  append_ops_preserve_alignment.2.2.1 Tape.new [0x46, 0x4f, 0x4f, 0x42, 0x41, 0x52] [0x41]
    (by decide)

/-- Past the final block the iterator stops. -/
theorem filesStep_done (blocks : List Block) (i : Nat) (h : blocks.length ≤ i) :
    filesStep blocks i = Step.done := by
  unfold filesStep
  rw [dif_neg (by omega)]

/-- The bin branch of `Files::next` succeeds whenever the header is well formed,
the data block exists and its body carries at least the six address bytes. -/
theorem filesStep_bin_success (blocks : List Block) (i : Nat) (h : i < blocks.length)
    (h4 : i + 1 < blocks.length)
    (hpat : blocks[i].body.take 10 = binPattern)
    (h16 : 16 ≤ blocks[i].body.length)
    (hutf : utf8Valid (nameField blocks[i].body) = true)
    (h6 : 6 ≤ blocks[i + 1].body.length) :
    filesStep blocks i
      = Step.file (File.Bin (trimTrailing (nameField blocks[i].body))
          (le16 blocks[i + 1].body 0) (le16 blocks[i + 1].body 2)
          (le16 blocks[i + 1].body 4) blocks[i + 1].body) (i + 2) := by
  unfold filesStep
  rw [dif_pos h]
  rw [if_neg (by omega : ¬ blocks[i].body.length < 10)]
  rw [if_pos hpat]
  rw [if_neg (by omega : ¬ blocks[i].body.length < 16)]
  rw [if_neg (by simp [hutf] : ¬ utf8Valid (nameField blocks[i].body) = false)]
  rw [dif_pos h4]
  rw [if_neg (by omega : ¬ blocks[i + 1].body.length < 6)]

/-- A crash of one `next` call makes the whole run report the crash flag with
the files accumulated so far. -/
theorem filesRun_crash (blocks : List Block) (fuel i : Nat) (acc : List File)
    (hstep : filesStep blocks i = Step.crash) :
    filesRun blocks (fuel + 1) i acc = (acc, true) := by
  simp [filesRun, hstep]

/-- Claim C2: COUNTEREXAMPLE.  A tape holding exactly one bin header block and
nothing else: the grouping run yields zero files together with the crash flag,
i.e. the source panics on the out-of-range `blocks[i + 1]` access; no explicit
error value of any kind is produced. -/
theorem filesAll_dangling_bin_header_crashes :
    filesAll [Block.from_data (binPattern ++ [0x46, 0x49, 0x4c, 0x45, 0x31, 0x20])]
      = ([], true) := by
  decide

/-- Claim C2 (amended): when the grouping cursor reaches a bin or basic header
block in the last position (no following data block), the `next` call is an
out-of-range block access — a panic in the source, the crash outcome here —
not an emitted file, not normal termination and not an explicit error value;
and whenever a step crashes, the run hands the caller exactly the files
accumulated by the steps before it, together with the crash flag. -/
theorem filesStep_dangling_header_crash :
    (∀ (blocks : List Block) (i : Nat) (h : i < blocks.length),
        i + 1 = blocks.length → 10 ≤ blocks[i].body.length →
        (blocks[i].body.take 10 = binPattern ∨ blocks[i].body.take 10 = basicPattern) →
        filesStep blocks i = Step.crash)
    ∧ (∀ (blocks : List Block) (fuel i : Nat) (acc : List File),
        filesStep blocks i = Step.crash → filesRun blocks (fuel + 1) i acc = (acc, true)) := by
  constructor
  · intro blocks i h hlast h10 hpat
    unfold filesStep
    rw [dif_pos h]
    rw [if_neg (by omega : ¬ blocks[i].body.length < 10)]
    rcases hpat with hp | hp
    · rw [if_pos hp]
      by_cases h16 : blocks[i].body.length < 16
      · rw [if_pos h16]
      · rw [if_neg h16]
        by_cases hu : utf8Valid (nameField blocks[i].body) = false
        · rw [if_pos hu]
        · rw [if_neg hu]
          rw [dif_neg (by omega : ¬ i + 1 < blocks.length)]
    · rw [if_neg (fun hc => (by decide : ¬ basicPattern = binPattern) (hp.symm.trans hc))]
      rw [if_pos hp]
      by_cases h16 : blocks[i].body.length < 16
      · rw [if_pos h16]
      · rw [if_neg h16]
        by_cases hu : utf8Valid (nameField blocks[i].body) = false
        · rw [if_pos hu]
        · rw [if_neg hu]
          rw [dif_neg (by omega : ¬ i + 1 < blocks.length)]
  · exact filesRun_crash

/-- Witness for the amended C2 theorem: a dangling basic header crashes the
step, and the run returns the previously accumulated files with the flag. -/
theorem filesStep_dangling_header_crash_witness :
    filesStep [Block.from_data (basicPattern ++ [0x42, 0x41, 0x53, 0x20, 0x20, 0x20])] 0
      = Step.crash
    ∧ filesRun [Block.from_data (basicPattern ++ [0x42, 0x41, 0x53, 0x20, 0x20, 0x20])]
        1 0 [File.Custom [0x01]] = ([File.Custom [0x01]], true) :=
  ⟨filesStep_dangling_header_crash.1 _ 0 (by decide) (by decide) (by decide)
      (Or.inr (by decide)),
    filesStep_dangling_header_crash.2 _ 0 0 [File.Custom [0x01]]
      (filesStep_dangling_header_crash.1 _ 0 (by decide) (by decide) (by decide)
        (Or.inr (by decide)))⟩

/-- Claim C4: the source does NOT tolerate a missing sentinel.  The chunk loop
indexes `blocks[self.i]` before evaluating its end-of-tape guard
`self.i < nblocks` (the guard can never be false when it is reached), so on a
tape whose ascii file has no `0x1a` byte anywhere the loop runs past the final
block and panics with an out-of-range index: here, the step at the ascii
header is the crash outcome and the run reports the crash flag, rather than
consuming the remaining blocks and terminating normally. -/
theorem filesStep_missing_sentinel_crashes :
    filesStep [Block.from_data (asciiPattern ++ [0x46, 0x49, 0x4c, 0x45, 0x32, 0x20]),
        Block.from_data [0x41, 0x42, 0x43, 0x44, 0x45, 0x46, 0x47, 0x48]] 0 = Step.crash
    ∧ filesAll [Block.from_data (asciiPattern ++ [0x46, 0x49, 0x4c, 0x45, 0x32, 0x20]),
        Block.from_data [0x41, 0x42, 0x43, 0x44, 0x45, 0x46, 0x47, 0x48]] = ([], true) := by
  refine ⟨by decide, by decide⟩

/-- Claim C9: CONFIRMED.  Grouping at a bin header reads the three
little-endian `u16` fields at data-body offsets 0..2, 2..4 and 4..6
unconditionally; under the precondition that the data block exists and its
body has at least 6 bytes (and the header itself is well formed) the step
always succeeds with those three fields, and on a tape whose bin data block
has a shorter body the read is out of range: the source panics (the crash
outcome here). -/
theorem bin_grouping_reads_spec :
    (∀ (blocks : List Block) (i : Nat) (h : i < blocks.length) (h4 : i + 1 < blocks.length),
        blocks[i].body.take 10 = binPattern → 16 ≤ blocks[i].body.length →
        utf8Valid (nameField blocks[i].body) = true → 6 ≤ blocks[i + 1].body.length →
        filesStep blocks i
          = Step.file (File.Bin (trimTrailing (nameField blocks[i].body))
              (le16 blocks[i + 1].body 0) (le16 blocks[i + 1].body 2)
              (le16 blocks[i + 1].body 4) blocks[i + 1].body) (i + 2))
    ∧ filesStep [Block.from_data (binPattern ++ [0x42, 0x49, 0x4e, 0x46, 0x49, 0x4c]),
        Block.from_data [0x01, 0x02, 0x03, 0x04]] 0 = Step.crash := by
  constructor
  · intro blocks i h h4 hpat h16 hutf h6
    exact filesStep_bin_success blocks i h h4 hpat h16 hutf h6
  · decide

/-- Witness for C9 at a concrete two-block tape with a 6-byte data body. -/
theorem bin_grouping_reads_spec_witness :
    filesStep [Block.from_data (binPattern ++ [0x42, 0x49, 0x4e, 0x46, 0x49, 0x4c]),
        Block.from_data [0x00, 0x01, 0x02, 0x03, 0x04, 0x05, 0x09, 0x09]] 0
      = Step.file (File.Bin [0x42, 0x49, 0x4e, 0x46, 0x49, 0x4c] 256 770 1284
          [0x00, 0x01, 0x02, 0x03, 0x04, 0x05, 0x09, 0x09]) 2 :=
  bin_grouping_reads_spec.1 _ 0 (by decide) (by decide) (by decide) (by decide)
    (by decide) (by decide)

/-- The name field of a header body built from a 10-byte pattern and a 6-byte
name is exactly the name. -/
theorem nameField_pattern (pat nm : List Nat) (hp : pat.length = 10) (hn : nm.length = 6) :
    nameField (pat ++ nm) = nm := by
  unfold nameField
  rw [List.drop_left' hp, ← hn, List.take_length]

/-- `append_block` padding in terms of `zeroPad8`. -/
theorem pad8_from_data (d : List Nat) :
    (Block.from_data d).padToAlign 8 0x00 = Block.from_data (zeroPad8 d) := by
  rw [padToAlign_from_data]
  rfl

/-- A nonempty payload is padded to at least 8 bytes. -/
theorem zeroPad8_length_ge (d : List Nat) (h : d ≠ []) : 8 ≤ (zeroPad8 d).length := by
  have : 1 ≤ d.length := List.length_pos.mpr h
  simp [zeroPad8, List.length_append, List.length_replicate]
  omega

/-- One unfolding of the fuelled iterator run. -/
theorem filesRun_step (blocks : List Block) (fuel i : Nat) (acc : List File) :
    filesRun blocks (fuel + 1) i acc
      = match filesStep blocks i with
        | Step.done => (acc, false)
        | Step.crash => (acc, true)
        | Step.file f j => filesRun blocks fuel j (acc ++ [f]) := rfl

/-- A two-block tape whose first step emits one file with cursor 2 decodes to
exactly that file. -/
theorem filesRun_two (blocks : List Block) (f : File)
    (h2 : blocks.length = 2) (h1 : filesStep blocks 0 = Step.file f 2) :
    filesAll blocks = ([f], false) := by
  have hdone : filesStep blocks 2 = Step.done := filesStep_done blocks 2 (by omega)
  show filesRun blocks (blocks.length + 1) 0 [] = ([f], false)
  rw [h2]
  rw [show (2 + 1 : Nat) = 1 + 1 + 1 from rfl]
  rw [filesRun_step, h1]
  show filesRun blocks (1 + 1) 2 ([] ++ [f]) = ([f], false)
  rw [filesRun_step, hdone]
  simp

/-- Claim C5: COUNTEREXAMPLE.  Name `FOOBAR`, payload `[1,2,3,4,5,6,7,8]` (so
the zero padding is empty): decoding the appended tape yields one Bin file
whose stored data is the whole data-block body `[1,..,8]`; the body from
offset 6 onward is `[7,8]`, which does not equal the original payload. -/
theorem append_bin_roundtrip_offset6_cex :
    filesAll (Tape.new.append_bin [0x46, 0x4f, 0x4f, 0x42, 0x41, 0x52]
        [1, 2, 3, 4, 5, 6, 7, 8]).blocks
      = ([File.Bin [0x46, 0x4f, 0x4f, 0x42, 0x41, 0x52] 513 1027 1541
          [1, 2, 3, 4, 5, 6, 7, 8]], false)
    ∧ List.drop 6 [1, 2, 3, 4, 5, 6, 7, 8] ≠ [1, 2, 3, 4, 5, 6, 7, 8] := by
  refine ⟨by decide, by decide⟩

/-- Claim C5 (amended): for every 6-byte name that is valid UTF-8 and every
nonempty payload, `append_bin` on the empty tape followed by `files()` yields
exactly one file, a Bin, whose name is the appended name with its trailing
`0x20`/`0x00` bytes trimmed, whose stored data is the data-block body — the
payload followed by the `0x00` bytes padding it to a multiple of 8, so the
body's first `len(data)` bytes are the original payload — and whose three
address fields are the little-endian `u16` values at body offsets 0, 2 and 4.
(An empty payload leaves an empty body and the `u16` reads panic; a name that
is not valid UTF-8 makes the `unwrap` in `Files::next` panic; and the emitted
name is the trimmed one, which is why those hypotheses are required.) -/
theorem append_bin_roundtrip : ∀ (name data : List Nat), name.length = 6 →
    utf8Valid name = true → data ≠ [] →
    filesAll (Tape.new.append_bin name data).blocks
      = ([File.Bin (trimTrailing name) (le16 (zeroPad8 data) 0) (le16 (zeroPad8 data) 2)
          (le16 (zeroPad8 data) 4) (zeroPad8 data)], false)
    ∧ (zeroPad8 data).take data.length = data := by
  intro name data hlen hutf hne
  have hhdr : (Block.from_data (binPattern ++ name)).padToAlign 8 0x00
      = Block.from_data (binPattern ++ name) := by
    rw [padToAlign_from_data]
    have h16 : (binPattern ++ name).length = 16 := by simp [binPattern, hlen]
    rw [h16]
    simp
  have hblocks : (Tape.new.append_bin name data).blocks
      = [Block.from_data (binPattern ++ name), Block.from_data (zeroPad8 data)] := by
    simp [Tape.append_bin, append_block_blocks, Tape.new, hhdr, pad8_from_data]
  have hname : nameField (binPattern ++ name) = name :=
    nameField_pattern binPattern name (by simp [binPattern]) hlen
  constructor
  · rw [hblocks]
    apply filesRun_two
    · rfl
    · have hpat : ([Block.from_data (binPattern ++ name),
          Block.from_data (zeroPad8 data)] : List Block)[0].body.take 10 = binPattern := by
        simp [Block.body_from_data]
        exact List.take_left' (by simp [binPattern])
      have h16 : 16 ≤ ([Block.from_data (binPattern ++ name),
          Block.from_data (zeroPad8 data)] : List Block)[0].body.length := by
        simp [Block.body_from_data, binPattern, hlen]
      have hu : utf8Valid (nameField ([Block.from_data (binPattern ++ name),
          Block.from_data (zeroPad8 data)] : List Block)[0].body) = true := by
        simp only [List.getElem_cons_zero, Block.body_from_data, hname]
        exact hutf
      have h6 : 6 ≤ ([Block.from_data (binPattern ++ name),
          Block.from_data (zeroPad8 data)] : List Block)[1].body.length := by
        simp only [List.getElem_cons_succ, List.getElem_cons_zero, Block.body_from_data]
        have := zeroPad8_length_ge data hne
        omega
      have hstep := filesStep_bin_success
        [Block.from_data (binPattern ++ name), Block.from_data (zeroPad8 data)] 0
        (by simp) (by simp) hpat h16 hu h6
      simp only [List.getElem_cons_zero, List.getElem_cons_succ,
        Block.body_from_data, hname] at hstep
      exact hstep
  · show (data ++ _).take data.length = data
    exact List.take_left data _

/-- Witness for the amended C5 theorem: name `FOOBAR`, one-byte payload. -/
theorem append_bin_roundtrip_witness :
    filesAll (Tape.new.append_bin [0x46, 0x4f, 0x4f, 0x42, 0x41, 0x52] [0x10]).blocks
      = ([File.Bin [0x46, 0x4f, 0x4f, 0x42, 0x41, 0x52] 16 0 0
          [0x10, 0, 0, 0, 0, 0, 0, 0]], false)
    ∧ (zeroPad8 [0x10]).take 1 = [0x10] :=
  append_bin_roundtrip [0x46, 0x4f, 0x4f, 0x42, 0x41, 0x52] [0x10]
    (by decide) (by decide) (by decide)

/-- Claim C6: COUNTEREXAMPLE.  Classifying a five-byte body is not defined
behaviour yielding an error value: `data[..10]` is an out-of-range slice, a
panic in the source (`none`/crash here); no `TruncatedHeader` error exists
anywhere in the code. -/
theorem short_block_classification_cex :
    Block.is_bin_header (Block.from_data [0x00, 0x00, 0x00, 0x00, 0x00]) = none
    ∧ Block.is_file_header (Block.from_data [0x00, 0x00, 0x00, 0x00, 0x00]) = none
    ∧ filesStep [Block.from_data [0x00, 0x00, 0x00, 0x00, 0x00]] 0 = Step.crash := by
  refine ⟨by decide, by decide, by decide⟩

/-- Claim C6 (amended): on every block whose body has fewer than 10 bytes, the
four classification functions and `file_name` hit the out-of-range `data[..10]`
slice — a panic in the source, `none` here, never an error value — and a decode
step that reaches such a block crashes the same way. -/
theorem short_block_classification_undefined :
    ∀ b : Block, b.body.length < 10 →
      Block.is_bin_header b = none ∧ Block.is_basic_header b = none
        ∧ Block.is_ascii_header b = none ∧ Block.is_file_header b = none
        ∧ Block.file_name b = none
        ∧ (∀ (blocks : List Block) (i : Nat) (h : i < blocks.length),
            blocks[i] = b → filesStep blocks i = Step.crash) := by
  intro b h10
  refine ⟨?_, ?_, ?_, ?_, ?_, ?_⟩
  · unfold Block.is_bin_header
    rw [if_neg (by omega)]
  · unfold Block.is_basic_header
    rw [if_neg (by omega)]
  · unfold Block.is_ascii_header
    rw [if_neg (by omega)]
  · unfold Block.is_file_header
    rw [if_neg (by omega)]
  · unfold Block.file_name
    rw [if_neg (by omega)]
  · intro blocks i h hb
    unfold filesStep
    rw [dif_pos h]
    rw [if_pos (by rw [hb]; omega)]

/-- Witness for the amended C6 theorem on a three-byte body. -/
theorem short_block_classification_undefined_witness :
    Block.is_bin_header (Block.from_data [1, 2, 3]) = none
    ∧ filesStep [Block.from_data [1, 2, 3]] 0 = Step.crash :=
  ⟨(short_block_classification_undefined (Block.from_data [1, 2, 3]) (by decide)).1,
    (short_block_classification_undefined (Block.from_data [1, 2, 3])
      (by decide)).2.2.2.2.2 [Block.from_data [1, 2, 3]] 0 (by decide) rfl⟩

/-- Claim C7: COUNTEREXAMPLE.  A block whose body starts with the ascii header
pattern, has 16 bytes, but whose six name bytes `0xff × 6` are not valid UTF-8:
`from_utf8(..).ok()` is `None`, so `file_name()` returns `None` (`some none`
here), not `Some` of the trimmed name. -/
theorem file_name_invalid_utf8_cex :
    Block.file_name (Block.from_data
        (asciiPattern ++ [0xff, 0xff, 0xff, 0xff, 0xff, 0xff])) = some none
    ∧ Block.file_name (Block.from_data
        (asciiPattern ++ [0xff, 0xff, 0xff, 0xff, 0xff, 0xff]))
      ≠ some (some (trimTrailing [0xff, 0xff, 0xff, 0xff, 0xff, 0xff])) := by
  refine ⟨by decide, by decide⟩

/-- Claim C7 (amended): for a block whose body starts with one of the three
header patterns and has at least 16 bytes, `file_name` returns the name bytes
at body offsets 10..16 with trailing `0x20`/`0x00` trimmed when those bytes
are valid UTF-8, and Rust `None` when they are not; for a block whose body
starts with a header pattern but is shorter than 16 bytes, the `data[10..16]`
slice is out of range (a source panic, `none` here); for a block with at
least 10 body bytes not starting with a header pattern it returns Rust
`None`; and on a body shorter than 10 bytes the classification slice
`data[..10]` is out of range (a source panic, `none` here). -/
theorem file_name_spec :
    (∀ b : Block,
        (b.body.take 10 = binPattern ∨ b.body.take 10 = basicPattern ∨
          b.body.take 10 = asciiPattern) →
        16 ≤ b.body.length → utf8Valid (nameField b.body) = true →
        Block.file_name b = some (some (trimTrailing (nameField b.body))))
    ∧ (∀ b : Block,
        (b.body.take 10 = binPattern ∨ b.body.take 10 = basicPattern ∨
          b.body.take 10 = asciiPattern) →
        16 ≤ b.body.length → utf8Valid (nameField b.body) = false →
        Block.file_name b = some none)
    ∧ (∀ b : Block,
        (b.body.take 10 = binPattern ∨ b.body.take 10 = basicPattern ∨
          b.body.take 10 = asciiPattern) →
        b.body.length < 16 → Block.file_name b = none)
    ∧ (∀ b : Block, 10 ≤ b.body.length →
        ¬(b.body.take 10 = binPattern ∨ b.body.take 10 = basicPattern ∨
          b.body.take 10 = asciiPattern) →
        Block.file_name b = some none)
    ∧ (∀ b : Block, b.body.length < 10 → Block.file_name b = none) := by
  have hpat10 : ∀ b : Block,
      (b.body.take 10 = binPattern ∨ b.body.take 10 = basicPattern ∨
        b.body.take 10 = asciiPattern) → 10 ≤ b.body.length := by
    intro b hpat
    rcases hpat with hp | hp | hp <;>
    · have hl := congrArg List.length hp
      simp [List.length_take, binPattern, basicPattern, asciiPattern] at hl
      omega
  refine ⟨?_, ?_, ?_, ?_, ?_⟩
  · intro b hpat h16 hutf
    unfold Block.file_name
    rw [if_pos (hpat10 b hpat), if_pos hpat, if_pos h16, if_pos hutf]
  · intro b hpat h16 hutf
    unfold Block.file_name
    rw [if_pos (hpat10 b hpat), if_pos hpat, if_pos h16, if_neg (by simp [hutf])]
  · intro b hpat h16
    unfold Block.file_name
    rw [if_pos (hpat10 b hpat), if_pos hpat, if_neg (by omega)]
  · intro b h10 hnot
    unfold Block.file_name
    rw [if_pos h10, if_neg hnot]
  · intro b h10
    unfold Block.file_name
    rw [if_neg (by omega)]

/-- Witness for the amended C7 theorem: a bin header named `FOO` padded with
spaces has its trailing spaces trimmed. -/
theorem file_name_spec_witness :
    Block.file_name (Block.from_data
        (binPattern ++ [0x46, 0x4f, 0x4f, 0x20, 0x20, 0x20]))
      = some (some [0x46, 0x4f, 0x4f]) :=
  file_name_spec.1 _ (Or.inl (by decide)) (by decide) (by decide)

/-- Every offset recorded by the marker scan is congruent to the start offset
modulo 8. -/
theorem mem_markerScan (cs : List (List Nat)) :
    ∀ (i x : Nat), x ∈ markerScan cs i → x % 8 = i % 8 := by
  induction cs with
  | nil =>
    intro i x hx
    simp [markerScan] at hx
  | cons c rest ih =>
    intro i x hx
    rw [markerScan] at hx
    rcases List.mem_append.mp hx with h1 | h2
    · by_cases hc : c = marker
      · rw [if_pos hc] at h1
        rcases List.mem_singleton.mp h1 with rfl
        rfl
      · rw [if_neg hc] at h1
        simp at h1
    · have := ih (i + 8) x h2
      omega

/-- The splitter emits exactly one block per recorded marker. -/
theorem blocksFromIndices_length (bytes : List Nat) :
    ∀ hs : List Nat, (blocksFromIndices bytes hs).length = hs.length := by
  intro hs
  induction hs with
  | nil => rfl
  | cons h1 rest ih =>
    cases rest with
    | nil => rfl
    | cons h2 rest2 =>
      show (Block.from_data _ :: blocksFromIndices bytes (h2 :: rest2)).length
        = (h1 :: h2 :: rest2).length
      simp [ih]

/-- Block `k` of the splitter spans from just after marker `k` to marker `k+1`,
or to end-of-buffer for the last marker. -/
theorem blocksFromIndices_getElem? (bytes : List Nat) :
    ∀ (hs : List Nat) (k h : Nat), hs[k]? = some h →
      (blocksFromIndices bytes hs)[k]?
        = some (Block.from_data (byteSlice bytes (h + 8)
            ((hs[k + 1]?).getD bytes.length))) := by
  intro hs
  induction hs with
  | nil =>
    intro k h hk
    simp at hk
  | cons h1 rest ih =>
    intro k h hk
    cases rest with
    | nil =>
      cases k with
      | zero =>
        simp at hk
        subst hk
        rfl
      | succ k =>
        simp at hk
    | cons h2 rest2 =>
      cases k with
      | zero =>
        simp at hk
        subst hk
        simp [blocksFromIndices]
      | succ k =>
        have hk' : (h2 :: rest2)[k]? = some h := by simpa using hk
        have hrec := ih k h hk'
        show (Block.from_data _ :: blocksFromIndices bytes (h2 :: rest2))[k + 1]? = _
        rw [List.getElem?_cons_succ, hrec]
        simp [List.getElem?_cons_succ]

/-- Claim C8: CONFIRMED.  The splitter finds markers only at offsets that are
multiples of 8; it emits exactly one block per marker, block `k`'s body being
the bytes from just after marker `k` to the byte before marker `k+1` (or
end-of-buffer for the last marker) — so any leading bytes before the first
marker are silently discarded without a block of their own; and a buffer with
no stride-aligned marker (the empty buffer included) yields zero blocks and
zero files. -/
theorem parse_blocks_spec :
    (∀ (bytes : List Nat) (x : Nat), x ∈ findMarkers bytes → x % 8 = 0)
    ∧ (∀ bytes : List Nat, (Tape.parse_blocks bytes).length = (findMarkers bytes).length)
    ∧ (∀ (bytes : List Nat) (k h : Nat), (findMarkers bytes)[k]? = some h →
        (Tape.parse_blocks bytes)[k]?
          = some (Block.from_data (byteSlice bytes (h + 8)
              (((findMarkers bytes)[k + 1]?).getD bytes.length))))
    ∧ (∀ bytes : List Nat, findMarkers bytes = [] →
        Tape.parse_blocks bytes = [] ∧ filesAll (Tape.parse_blocks bytes) = ([], false))
    ∧ (Tape.parse_blocks [] = [] ∧ filesAll (Tape.parse_blocks []) = ([], false)) := by
  refine ⟨?_, ?_, ?_, ?_, ?_⟩
  · intro bytes x hx
    have := mem_markerScan (chunksOf 8 bytes) 0 x hx
    simpa using this
  · intro bytes
    exact blocksFromIndices_length bytes (findMarkers bytes)
  · intro bytes k h hk
    exact blocksFromIndices_getElem? bytes (findMarkers bytes) k h hk
  · intro bytes hempty
    have h0 : Tape.parse_blocks bytes = [] := by
      unfold Tape.parse_blocks
      rw [hempty]
      rfl
    refine ⟨h0, ?_⟩
    rw [h0]
    rfl
  · exact ⟨rfl, rfl⟩

/-- Witness for C8 on a buffer with eight leading junk bytes, one marker at
offset 8 and a three-byte tail: the single block holds the tail. -/
theorem parse_blocks_spec_witness :
    (Tape.parse_blocks ([0, 0, 0, 0, 0, 0, 0, 0] ++ marker ++ [1, 2, 3]))[0]?
      = some (Block.from_data (byteSlice ([0, 0, 0, 0, 0, 0, 0, 0] ++ marker ++ [1, 2, 3])
          (8 + 8)
          (((findMarkers ([0, 0, 0, 0, 0, 0, 0, 0] ++ marker ++ [1, 2, 3]))[0 + 1]?).getD
            ([0, 0, 0, 0, 0, 0, 0, 0] ++ marker ++ [1, 2, 3]).length))) :=
  parse_blocks_spec.2.2.1 ([0, 0, 0, 0, 0, 0, 0, 0] ++ marker ++ [1, 2, 3]) 0 8 (by decide)
